import Mathlib

/-!
Shallow embedding of the htmldicts transliteration and search-merge core.

Strings from the Python source are modelled as lists of characters
(`Str := List Char`).  Python's `str.lower()`, `str.upper()` and
`str.isupper()` are modelled by `pyLower`, `pyUpper` and `pyIsUpper`,
covering the ASCII, Latin-1, Latin-Extended and Cyrillic characters that
occur in the mapping tables; characters outside those ranges are uncased
and pass through unchanged, exactly as in the source's data.

The mapping tables, the greedy 3-2-1 scanners, the special-case lexicon,
the spelling-variant generator and the search merge/filter pipeline are
translated from `transliteration.py` and `app/api/search_client.py`.
-/

abbrev Str := List Char

/-- Python `str.lower()` on one character, for the character ranges used by
the tables: ASCII, Latin-1, the Latin-Extended letters of the tables, and
Cyrillic (including Ё).  Other characters are unchanged. -/
def pyLower (c : Char) : Char :=
  let n := c.toNat
  if 65 ≤ n ∧ n ≤ 90 then Char.ofNat (n + 32)
  else if 192 ≤ n ∧ n ≤ 222 ∧ n ≠ 215 then Char.ofNat (n + 32)
  else if 1024 ≤ n ∧ n ≤ 1039 then Char.ofNat (n + 80)
  else if 1040 ≤ n ∧ n ≤ 1071 then Char.ofNat (n + 32)
  else if n = 268 ∨ n = 286 ∨ n = 352 ∨ n = 362 ∨ n = 381 ∨ n = 1240 ∨
          n = 7728 ∨ n = 7764 ∨ n = 7788 then Char.ofNat (n + 1)
  else c

/-- Python `str.upper()` on one character, inverse ranges of `pyLower`. -/
def pyUpper (c : Char) : Char :=
  let n := c.toNat
  if 97 ≤ n ∧ n ≤ 122 then Char.ofNat (n - 32)
  else if 224 ≤ n ∧ n ≤ 254 ∧ n ≠ 247 then Char.ofNat (n - 32)
  else if 1072 ≤ n ∧ n ≤ 1103 then Char.ofNat (n - 32)
  else if 1104 ≤ n ∧ n ≤ 1119 then Char.ofNat (n - 80)
  else if n = 269 ∨ n = 287 ∨ n = 353 ∨ n = 363 ∨ n = 382 ∨ n = 1241 ∨
          n = 7729 ∨ n = 7765 ∨ n = 7789 then Char.ofNat (n - 1)
  else c

/-- Python `str.isupper()` on one character for the same ranges. -/
def pyIsUpper (c : Char) : Bool :=
  let n := c.toNat
  (65 ≤ n ∧ n ≤ 90) ∨ (192 ≤ n ∧ n ≤ 222 ∧ n ≠ 215) ∨
  (1024 ≤ n ∧ n ≤ 1071) ∨
  n = 268 ∨ n = 286 ∨ n = 352 ∨ n = 362 ∨ n = 381 ∨ n = 1240 ∨
  n = 7728 ∨ n = 7764 ∨ n = 7788

/-- `text.lower()` on a whole string. -/
def pyLowerStr (s : Str) : Str := s.map pyLower

/-- `text.upper()` on a whole string. -/
def pyUpperStr (s : Str) : Str := s.map pyUpper

/-- Membership/lookup in a Python dict with string keys, as an association
list lookup. -/
def tableLookup (tbl : List (Str × Str)) (k : Str) : Option Str :=
  (tbl.find? (fun p => p.1 == k)).map (fun p => p.2)

/-- `LATIN_TO_CYRILLIC` from `transliteration.py`. -/
def LATIN_TO_CYRILLIC : List (Str × Str) :=
  [("a".toList, "а".toList), ("æ".toList, "æ".toList), ("ä".toList, "æ".toList),
   ("b".toList, "б".toList), ("c".toList, "ц".toList), ("č".toList, "ч".toList),
   ("d".toList, "д".toList), ("e".toList, "е".toList), ("f".toList, "ф".toList),
   ("g".toList, "г".toList), ("ğ".toList, "гъ".toList), ("h".toList, "х".toList),
   ("i".toList, "и".toList), ("j".toList, "й".toList), ("k".toList, "к".toList),
   ("ḱ".toList, "къ".toList), ("l".toList, "л".toList), ("m".toList, "м".toList),
   ("n".toList, "н".toList), ("o".toList, "о".toList), ("p".toList, "п".toList),
   ("ṕ".toList, "пъ".toList), ("q".toList, "хъ".toList), ("r".toList, "р".toList),
   ("s".toList, "с".toList), ("š".toList, "ш".toList), ("t".toList, "т".toList),
   ("ṭ".toList, "тъ".toList), ("u".toList, "у".toList), ("ū".toList, "у".toList),
   ("v".toList, "в".toList), ("w".toList, "у".toList), ("x".toList, "х".toList),
   ("y".toList, "ы".toList), ("z".toList, "з".toList), ("ž".toList, "ж".toList),
   ("ә".toList, "у".toList),
   ("k'".toList, "къ".toList), ("p'".toList, "пъ".toList),
   ("t'".toList, "тъ".toList), ("c'".toList, "цъ".toList),
   ("kẜ".toList, "хъу".toList), ("gẜ".toList, "гъу".toList),
   ("k'ẜ".toList, "къу".toList),
   ("dz".toList, "дз".toList), ("dzh".toList, "дж".toList)]

/-- `CYRILLIC_TO_LATIN` from `transliteration.py`. -/
def CYRILLIC_TO_LATIN : List (Str × Str) :=
  [("а".toList, "a".toList), ("æ".toList, "æ".toList), ("б".toList, "b".toList),
   ("в".toList, "v".toList), ("г".toList, "g".toList), ("гъ".toList, "ğ".toList),
   ("д".toList, "d".toList), ("дж".toList, "dzh".toList), ("дз".toList, "dz".toList),
   ("е".toList, "e".toList), ("ё".toList, "jo".toList), ("ж".toList, "ž".toList),
   ("з".toList, "z".toList), ("и".toList, "i".toList), ("й".toList, "j".toList),
   ("к".toList, "k".toList), ("къ".toList, "k'".toList), ("л".toList, "l".toList),
   ("м".toList, "m".toList), ("н".toList, "n".toList), ("о".toList, "o".toList),
   ("п".toList, "p".toList), ("пъ".toList, "p'".toList), ("р".toList, "r".toList),
   ("с".toList, "s".toList), ("т".toList, "t".toList), ("тъ".toList, "t'".toList),
   ("у".toList, "u".toList), ("ф".toList, "f".toList), ("х".toList, "h".toList),
   ("хъ".toList, "q".toList), ("ц".toList, "c".toList), ("цъ".toList, "c'".toList),
   ("ч".toList, "č".toList), ("ш".toList, "š".toList), ("щ".toList, "šč".toList),
   ("ъ".toList, "".toList), ("ы".toList, "y".toList), ("ь".toList, "".toList),
   ("э".toList, "e".toList), ("ю".toList, "ju".toList), ("я".toList, "ja".toList),
   ("хъу".toList, "kẜ".toList), ("гъу".toList, "gẜ".toList),
   ("къу".toList, "k'ẜ".toList)]

/-- A value of `SPECIAL_CASE_MAPPING`: either a single string or a list of
strings (the Python dict holds both). -/
inductive SpecialVal where
  | str : Str → SpecialVal
  | list : List Str → SpecialVal
deriving DecidableEq

/-- `SPECIAL_CASE_MAPPING` from `transliteration.py`. -/
def SPECIAL_CASE_MAPPING : List (Str × SpecialVal) :=
  [("tærqūs".toList, SpecialVal.str ("тæрхъус".toList)),
   ("tærqos".toList, SpecialVal.str ("тæрхъус".toList)),
   ("tärqūs".toList, SpecialVal.str ("тæрхъус".toList)),
   ("tärqos".toList, SpecialVal.str ("тæрхъус".toList)),
   ("тæрхъус".toList,
     SpecialVal.list ["tærqūs".toList, "tærqos".toList, "tärqūs".toList, "tärqos".toList])]

/-- Lookup in `SPECIAL_CASE_MAPPING`. -/
def specialLookup (k : Str) : Option SpecialVal :=
  (SPECIAL_CASE_MAPPING.find? (fun p => p.1 == k)).map (fun p => p.2)

/-- `COMMON_VARIANTS` from `transliteration.py`. -/
def COMMON_VARIANTS : List (Char × List Str) :=
  [('æ', ["ä".toList, "a".toList, "e".toList]),
   ('ä', ["æ".toList, "a".toList, "e".toList]),
   ('ū', ["u".toList]),
   ('ә', ["u".toList, "y".toList]),
   ('ẜ', ["w".toList]),
   ('ğ', ["gh".toList]),
   ('š', ["sh".toList]),
   ('ž', ["zh".toList]),
   ('č', ["ch".toList])]

/-- Lookup in `COMMON_VARIANTS`. -/
def variantLookup (c : Char) : Option (List Str) :=
  (COMMON_VARIANTS.find? (fun p => p.1 == c)).map (fun p => p.2)

/-- The guarded slice lookup of the scanners: Python's
`i < len(text) - n + 1 and text[i:i+n].lower() in TABLE`, returning the
mapped value when the slice of length `n` exists and is a key. -/
def tryKey (tbl : List (Str × Str)) (t : Str) (n : Nat) : Option Str :=
  if n ≤ t.length then tableLookup tbl (pyLowerStr (t.take n)) else none

/-- The character-scanning loop of `latin_to_cyrillic` (lines 82-107):
try a 3-character lower-cased slice, then 2, then 1 (upper-casing the whole
mapped output when the single input character is uppercase), else pass the
character through unchanged.  The source's availability guards
`i < len(text) - 2` and `i < len(text) - 1` are encoded by the list
patterns for the tail lengths 0, 1 and at-least-2. -/
def l2cScan : Str → Str
  | [] => []
  | [c] =>
    match tableLookup LATIN_TO_CYRILLIC [pyLower c] with
    | some v => if pyIsUpper c then pyUpperStr v else v
    | none => [c]
  | [c1, c2] =>
    match tableLookup LATIN_TO_CYRILLIC (pyLowerStr [c1, c2]) with
    | some v => v
    | none =>
      match tableLookup LATIN_TO_CYRILLIC [pyLower c1] with
      | some v => (if pyIsUpper c1 then pyUpperStr v else v) ++ l2cScan [c2]
      | none => c1 :: l2cScan [c2]
  | c1 :: c2 :: c3 :: rest =>
    match tableLookup LATIN_TO_CYRILLIC (pyLowerStr [c1, c2, c3]) with
    | some v => v ++ l2cScan rest
    | none =>
      match tableLookup LATIN_TO_CYRILLIC (pyLowerStr [c1, c2]) with
      | some v => v ++ l2cScan (c3 :: rest)
      | none =>
        match tableLookup LATIN_TO_CYRILLIC [pyLower c1] with
        | some v => (if pyIsUpper c1 then pyUpperStr v else v) ++ l2cScan (c2 :: c3 :: rest)
        | none => c1 :: l2cScan (c2 :: c3 :: rest)

/-- The character-scanning loop of `cyrillic_to_latin` (lines 127-153),
same shape as `l2cScan` over the Cyrillic table. -/
def c2lScan : Str → Str
  | [] => []
  | [c] =>
    match tableLookup CYRILLIC_TO_LATIN [pyLower c] with
    | some v => if pyIsUpper c then pyUpperStr v else v
    | none => [c]
  | [c1, c2] =>
    match tableLookup CYRILLIC_TO_LATIN (pyLowerStr [c1, c2]) with
    | some v => v
    | none =>
      match tableLookup CYRILLIC_TO_LATIN [pyLower c1] with
      | some v => (if pyIsUpper c1 then pyUpperStr v else v) ++ c2lScan [c2]
      | none => c1 :: c2lScan [c2]
  | c1 :: c2 :: c3 :: rest =>
    match tableLookup CYRILLIC_TO_LATIN (pyLowerStr [c1, c2, c3]) with
    | some v => v ++ c2lScan rest
    | none =>
      match tableLookup CYRILLIC_TO_LATIN (pyLowerStr [c1, c2]) with
      | some v => v ++ c2lScan (c3 :: rest)
      | none =>
        match tableLookup CYRILLIC_TO_LATIN [pyLower c1] with
        | some v => (if pyIsUpper c1 then pyUpperStr v else v) ++ c2lScan (c2 :: c3 :: rest)
        | none => c1 :: c2lScan (c2 :: c3 :: rest)

/-- `latin_to_cyrillic`: the special-case lexicon is checked first and its
value returned as-is (which may be a list, not a string), otherwise the
scan result is returned as a string. -/
def latin_to_cyrillic (text : Str) : SpecialVal :=
  match specialLookup (pyLowerStr text) with
  | some v => v
  | none => SpecialVal.str (l2cScan text)

/-- `cyrillic_to_latin`: the special-case lexicon is checked first; a list
value yields its first element, otherwise the scan runs. -/
def cyrillic_to_latin (text : Str) : Str :=
  match specialLookup (pyLowerStr text) with
  | some (SpecialVal.str s) => s
  | some (SpecialVal.list l) => l.headD []
  | none => c2lScan text

/-- The variants contributed at position `i` of `generate_variants`:
one string per substitute of `text[i].lower()`, replacing that single
position (the substitute may be longer than one character). -/
def variantsAt (text : Str) (i : Nat) : List Str :=
  match text[i]? with
  | none => []
  | some ch =>
    match variantLookup (pyLower ch) with
    | none => []
    | some vcs => vcs.map (fun vc => text.take i ++ vc ++ text.drop (i + 1))

/-- `generate_variants` (lines 155-173): the original string plus the
single-position substitutions; Python's final `list(set(...))` only
deduplicates, so membership is the observable content. -/
def generate_variants (text : Str) : List Str :=
  text :: (List.range text.length).flatMap (variantsAt text)

/-- Adding one string to the Python `set` of variants, modelled as an
insertion-ordered duplicate-free list. -/
def addVariant (l : List Str) (v : Str) : List Str :=
  if v ∈ l then l else l ++ [v]

/-- `set.update` with a list of strings. -/
def addVariants (l : List Str) (vs : List Str) : List Str :=
  vs.foldl addVariant l

/-- `get_all_script_variants` (lines 175-209).  The result is `none` in the
one (unreachable) situation where Python would raise `TypeError`: adding a
list-valued `latin_to_cyrillic` result to the set. -/
def get_all_script_variants (text : Str) : Option (List Str) :=
  let variants := [text]
  let variants :=
    match specialLookup (pyLowerStr text) with
    | some (SpecialVal.str s) => addVariant variants s
    | some (SpecialVal.list l) => addVariants variants l
    | none => variants
  if (pyLowerStr text).any (fun c => (tableLookup CYRILLIC_TO_LATIN [c]).isSome) then
    let latin_variant := cyrillic_to_latin text
    some (addVariants (addVariant variants latin_variant) (generate_variants latin_variant))
  else
    match latin_to_cyrillic text with
    | SpecialVal.str cyr => some (addVariants (addVariant variants cyr) (generate_variants text))
    | SpecialVal.list _ => none

/-! ## Search pipeline (`app/api/search_client.py`) -/

/-- One backend hit record.  Python hits are dicts with optionally absent
fields; each field is an `Option`.  `rankingScore` models `_rankingScore`
(relevance scores are comparable numbers, modelled as rationals). -/
structure Hit where
  id : Option Str
  term : Option Str
  definition : Option Str
  source : Option Str
  rankingScore : Option ℚ
  expandedContext : Option Str
  fullContext : Option Str
deriving DecidableEq

/-- `x.get("_rankingScore", 0.0)`. -/
def hitScore (h : Hit) : ℚ := h.rankingScore.getD 0

/-- One backend response: `hits`, `estimatedTotalHits`, `processingTimeMs`. -/
structure SearchResult where
  hits : List Hit
  estimatedTotalHits : Nat
  processingTimeMs : Nat
deriving DecidableEq

/-- The fixed note appended by `generate_expanded_context` for
`context_size == "expanded"`. -/
def expandedContextNote : Str :=
  ("\n\n[Note: This is an expanded context view. In a complete implementation, this would show surrounding entries and more of the dictionary context. The current entry definition is shown above.]").toList

/-- The fixed note appended by `generate_expanded_context` for
`context_size == "full"`. -/
def fullContextNote : Str :=
  ("\n\n[Note: This is a full context view. In a complete implementation, this would show a large section of the dictionary surrounding this entry, potentially including multiple pages of content. The current entry definition is shown above.]").toList

/-- `generate_expanded_context` (lines 240-277): `None` for an empty
definition or default size, otherwise the definition plus the size's
fixed note. -/
def generate_expanded_context (definition : Str) (context_size : Str) : Option Str :=
  if definition = [] ∨ context_size = ("default").toList then none
  else if context_size = ("expanded").toList then some (definition ++ expandedContextNote)
  else if context_size = ("full").toList then some (definition ++ fullContextNote)
  else none

/-- The per-hit shaping of `process_search_results` (lines 208-238):
`default` strips both context fields; `expanded` synthesizes
`expanded_context` when missing; `full` renames `full_context` to
`expanded_context` or synthesizes it from the definition. -/
def shapeHit (context_size : Str) (h : Hit) : Hit :=
  if context_size = ("default").toList then
    { h with expandedContext := none, fullContext := none }
  else if context_size = ("expanded").toList then
    match h.expandedContext with
    | some _ => h
    | none =>
      { h with expandedContext := generate_expanded_context (h.definition.getD []) context_size }
  else if context_size = ("full").toList then
    match h.fullContext with
    | some c => { h with expandedContext := some c, fullContext := none }
    | none =>
      { h with expandedContext := generate_expanded_context (h.definition.getD []) context_size }
  else h

/-- `process_search_results` applied to a whole response. -/
def process_search_results (r : SearchResult) (context_size : Str) : SearchResult :=
  { r with hits := r.hits.map (shapeHit context_size) }

/-- Stable insertion of a hit into a descending-by-score list: a hit moves
ahead only of strictly lower-scoring hits, so equal scores keep their
original order — the contract of Python's stable `sorted(..., reverse=True)`. -/
def insertHitDesc (h : Hit) : List Hit → List Hit
  | [] => [h]
  | x :: xs => if hitScore x ≤ hitScore h then h :: x :: xs else x :: insertHitDesc h xs

/-- `sorted(hits, key=_rankingScore, reverse=True)` as a stable sort. -/
def sortByScoreDesc : List Hit → List Hit
  | [] => []
  | x :: xs => insertHitDesc x (sortByScoreDesc xs)

/-- The inner merge of the transliteration branch (lines 136-142): append a
hit only when its `id` has not been seen yet. -/
def mergeHitsAux : List Hit → List (Option Str) → List Hit
  | [], _ => []
  | h :: t, seen =>
    if h.id ∈ seen then mergeHitsAux t seen
    else h :: mergeHitsAux t (h.id :: seen)

/-- Merging the per-variant hit lists in query order with first-seen-wins
deduplication by `id`. -/
def mergeVariantHits (lists : List (List Hit)) : List Hit :=
  mergeHitsAux lists.flatten []

/-- The per-source capping loop (lines 177-197): include a hit while its
source's running count is below `lps`; after an append, stop entirely once
the accumulated length has reached `limit`; a capped source is skipped
without halting. -/
def capGo (lps limit : Nat) : List Hit → (Str → Nat) → List Hit → List Hit
  | [], _, acc => acc
  | h :: t, counts, acc =>
    let s := h.source.getD []
    if counts s < lps then
      let acc2 := acc ++ [h]
      if limit ≤ acc2.length then acc2
      else capGo lps limit t (fun u => if u = s then counts s + 1 else counts u) acc2
    else capGo lps limit t counts acc

/-- `limit_per_source` filtering applied from empty counters. -/
def applyPerSourceCap (hits : List Hit) (lps limit : Nat) : List Hit :=
  capGo lps limit hits (fun _ => 0) []

/-- The per-variant backend queries of the transliteration branch, aborting
at the first failing sub-query (the Python loop raises out of the whole
`try` block). -/
def runVariantQueries (backend : Str → Except Str SearchResult) :
    List Str → Except Str (List SearchResult)
  | [] => Except.ok []
  | v :: vs =>
    match backend v with
    | Except.error e => Except.error e
    | Except.ok r =>
      match runVariantQueries backend vs with
      | Except.error e => Except.error e
      | Except.ok rs => Except.ok (r :: rs)

/-- Python's substring test `needle in hay`. -/
def containsSub (needle hay : Str) : Bool := decide (needle <:+: hay)

/-- The body of `search_dictionary` inside its `try` block.  `backend` is
the injected Meilisearch collaborator (`index.search`), `norm` models
`unicodedata.normalize("NFKC", ·)`. -/
def searchBody (backend : Str → Except Str SearchResult) (norm : Str → Str)
    (query : Str) (limit limit_per_source : Nat) (use_transliteration : Bool)
    (context_size : Str) (source : Option Str) : Except Str SearchResult :=
  if use_transliteration = false then
    match backend query with
    | Except.error e => Except.error e
    | Except.ok result =>
      let result := process_search_results result context_size
      match source with
      | some src =>
        let srcN := norm (pyLowerStr src)
        let filtered :=
          result.hits.filter (fun h => containsSub srcN (norm (pyLowerStr (h.source.getD []))))
        Except.ok { result with hits := filtered.take limit }
      | none =>
        Except.ok { result with hits := applyPerSourceCap result.hits limit_per_source limit }
  else
    match get_all_script_variants query with
    | none => Except.error (("unhashable type: list").toList)
    | some query_variants =>
      match runVariantQueries backend query_variants with
      | Except.error e => Except.error e
      | Except.ok rs =>
        let mergedHits := mergeVariantHits (rs.map (fun r => r.hits))
        let totalTime := (rs.map (fun r => r.processingTimeMs)).sum
        let totalEst := (rs.map (fun r => r.estimatedTotalHits)).foldl max 0
        let sortedHits := sortByScoreDesc mergedHits
        let cappedHits :=
          match source with
          | some src =>
            let srcN := norm (pyLowerStr src)
            (sortedHits.filter
              (fun h => containsSub srcN (norm (pyLowerStr (h.source.getD []))))).take limit
          | none => applyPerSourceCap sortedHits limit_per_source limit
        Except.ok (process_search_results
          { hits := cappedHits, estimatedTotalHits := totalEst, processingTimeMs := totalTime }
          context_size)

/-- `search_dictionary` (lines 13-206): the body wrapped by the top-level
`except` that re-raises every failure as
`RuntimeError("Search engine error: ...")`. -/
def searchDictionary (backend : Str → Except Str SearchResult) (norm : Str → Str)
    (query : Str) (limit limit_per_source : Nat) (use_transliteration : Bool)
    (context_size : Str) (source : Option Str) : Except Str SearchResult :=
  match searchBody backend norm query limit limit_per_source use_transliteration
      context_size source with
  | Except.error e => Except.error (("Search engine error: ").toList ++ e)
  | Except.ok r => Except.ok r

/-- A minimal hit with a given source and score, used by the concrete
evaluations below. -/
def demoHit (src : Str) (q : ℚ) : Hit :=
  { id := none, term := none, definition := none, source := some src,
    rankingScore := some q, expandedContext := none, fullContext := none }

/-- A backend whose single response lists a lower-scoring hit before a
higher-scoring one, for exercising the non-transliteration path. -/
def cexBackend : Str → Except Str SearchResult := fun _ =>
  Except.ok { hits := [demoHit ("A".toList) 0, demoHit ("B".toList) 1],
              estimatedTotalHits := 2, processingTimeMs := 1 }

/-- A backend that succeeds on the query `b` and fails on every other
variant, for exercising per-variant failure handling. -/
def cexBackendFail : Str → Except Str SearchResult := fun q =>
  if q = ("b".toList) then
    Except.ok { hits := [demoHit ("A".toList) 1], estimatedTotalHits := 1,
                processingTimeMs := 1 }
  else Except.error (("boom").toList)

theorem l2cScan_step3 (t v : Str) (h3 : tryKey LATIN_TO_CYRILLIC t 3 = some v) :
    l2cScan t = v ++ l2cScan (t.drop 3) := by
  match t with
  | [] => simp [tryKey] at h3
  | [c] => simp [tryKey] at h3
  | [c1, c2] => simp [tryKey] at h3
  | c1 :: c2 :: c3 :: rest =>
    have hl : tableLookup LATIN_TO_CYRILLIC (pyLowerStr [c1, c2, c3]) = some v := by
      unfold tryKey at h3
      rw [if_pos (by simp)] at h3
      simpa using h3
    simp [l2cScan, hl]

theorem l2cScan_step2 (t v : Str) (h3 : tryKey LATIN_TO_CYRILLIC t 3 = none)
    (h2 : tryKey LATIN_TO_CYRILLIC t 2 = some v) :
    l2cScan t = v ++ l2cScan (t.drop 2) := by
  match t with
  | [] => simp [tryKey] at h2
  | [c] => simp [tryKey] at h2
  | [c1, c2] =>
    have hl : tableLookup LATIN_TO_CYRILLIC (pyLowerStr [c1, c2]) = some v := by
      unfold tryKey at h2
      rw [if_pos (by simp)] at h2
      simpa using h2
    simp [l2cScan, hl]
  | c1 :: c2 :: c3 :: rest =>
    have hl3 : tableLookup LATIN_TO_CYRILLIC (pyLowerStr [c1, c2, c3]) = none := by
      unfold tryKey at h3
      rw [if_pos (by simp)] at h3
      simpa using h3
    have hl : tableLookup LATIN_TO_CYRILLIC (pyLowerStr [c1, c2]) = some v := by
      unfold tryKey at h2
      rw [if_pos (by simp)] at h2
      simpa using h2
    simp [l2cScan, hl3, hl]

theorem l2cScan_step1 (c : Char) (rest v : Str)
    (h3 : tryKey LATIN_TO_CYRILLIC (c :: rest) 3 = none)
    (h2 : tryKey LATIN_TO_CYRILLIC (c :: rest) 2 = none)
    (h1 : tableLookup LATIN_TO_CYRILLIC [pyLower c] = some v) :
    l2cScan (c :: rest) = (if pyIsUpper c then pyUpperStr v else v) ++ l2cScan rest := by
  match rest with
  | [] => simp [l2cScan, h1]
  | [c2] =>
    have hl2 : tableLookup LATIN_TO_CYRILLIC (pyLowerStr [c, c2]) = none := by
      unfold tryKey at h2
      rw [if_pos (by simp)] at h2
      simpa using h2
    simp [l2cScan, hl2, h1]
  | c2 :: c3 :: rest3 =>
    have hl3 : tableLookup LATIN_TO_CYRILLIC (pyLowerStr [c, c2, c3]) = none := by
      unfold tryKey at h3
      rw [if_pos (by simp)] at h3
      simpa using h3
    have hl2 : tableLookup LATIN_TO_CYRILLIC (pyLowerStr [c, c2]) = none := by
      unfold tryKey at h2
      rw [if_pos (by simp)] at h2
      simpa using h2
    simp [l2cScan, hl3, hl2, h1]

theorem l2cScan_pass (c : Char) (rest : Str)
    (h3 : tryKey LATIN_TO_CYRILLIC (c :: rest) 3 = none)
    (h2 : tryKey LATIN_TO_CYRILLIC (c :: rest) 2 = none)
    (h1 : tableLookup LATIN_TO_CYRILLIC [pyLower c] = none) :
    l2cScan (c :: rest) = c :: l2cScan rest := by
  match rest with
  | [] => simp [l2cScan, h1]
  | [c2] =>
    have hl2 : tableLookup LATIN_TO_CYRILLIC (pyLowerStr [c, c2]) = none := by
      unfold tryKey at h2
      rw [if_pos (by simp)] at h2
      simpa using h2
    simp [l2cScan, hl2, h1]
  | c2 :: c3 :: rest3 =>
    have hl3 : tableLookup LATIN_TO_CYRILLIC (pyLowerStr [c, c2, c3]) = none := by
      unfold tryKey at h3
      rw [if_pos (by simp)] at h3
      simpa using h3
    have hl2 : tableLookup LATIN_TO_CYRILLIC (pyLowerStr [c, c2]) = none := by
      unfold tryKey at h2
      rw [if_pos (by simp)] at h2
      simpa using h2
    simp [l2cScan, hl3, hl2, h1]

theorem tableLookup_mem (tbl : List (Str × Str)) (k v : Str)
    (h : tableLookup tbl k = some v) : ∃ p ∈ tbl, p.1 = k := by
  unfold tableLookup at h
  cases hf : tbl.find? (fun p => p.1 == k) with
  | none => rw [hf] at h; simp at h
  | some p =>
    have hm := List.mem_of_find?_eq_some hf
    have hp := List.find?_some hf
    exact ⟨p, hm, by simpa using hp⟩

theorem l2c_keys_head :
    ∀ p ∈ LATIN_TO_CYRILLIC, ∃ c ∈ p.1, (tableLookup LATIN_TO_CYRILLIC [c]).isSome = true := by
  decide

theorem c2l_keys_head :
    ∀ p ∈ CYRILLIC_TO_LATIN, ∃ c ∈ p.1, (tableLookup CYRILLIC_TO_LATIN [c]).isSome = true := by
  decide

theorem tryKey_none_of_chars (tbl : List (Str × Str)) (t : Str) (n : Nat)
    (hhead : ∀ p ∈ tbl, ∃ c ∈ p.1, (tableLookup tbl [c]).isSome = true)
    (h : ∀ c ∈ t, tableLookup tbl [pyLower c] = none) : tryKey tbl t n = none := by
  unfold tryKey
  split
  · cases hl : tableLookup tbl (pyLowerStr (t.take n)) with
    | none => rfl
    | some v =>
      obtain ⟨p, hp, hpk⟩ := tableLookup_mem tbl _ v hl
      obtain ⟨c, hc, hs⟩ := hhead p hp
      rw [hpk] at hc
      obtain ⟨c0, hc0, rfl⟩ := List.mem_map.mp hc
      rw [h c0 (List.mem_of_mem_take hc0)] at hs
      simp at hs
  · rfl

theorem l2cScan_id (w : Str)
    (h : ∀ c ∈ w, tableLookup LATIN_TO_CYRILLIC [pyLower c] = none) : l2cScan w = w := by
  induction w with
  | nil => rfl
  | cons c rest ih =>
    have hall : ∀ c0 ∈ c :: rest, tableLookup LATIN_TO_CYRILLIC [pyLower c0] = none := h
    rw [l2cScan_pass c rest
      (tryKey_none_of_chars _ _ _ l2c_keys_head hall)
      (tryKey_none_of_chars _ _ _ l2c_keys_head hall)
      (h c (List.mem_cons_self c rest))]
    rw [ih (fun c0 hc0 => h c0 (List.mem_cons_of_mem c hc0))]

theorem mem_addVariant (l : List Str) (x v : Str) :
    v ∈ addVariant l x ↔ v ∈ l ∨ v = x := by
  unfold addVariant
  split
  · constructor
    · exact fun hv => Or.inl hv
    · rintro (hv | rfl)
      · exact hv
      · assumption
  · simp

theorem mem_addVariants (xs : List Str) (l : List Str) (v : Str) :
    v ∈ addVariants l xs ↔ v ∈ l ∨ v ∈ xs := by
  induction xs generalizing l with
  | nil => simp [addVariants]
  | cons x xs ih =>
    show v ∈ addVariants (addVariant l x) xs ↔ _
    rw [ih, mem_addVariant]
    simp [or_assoc]

theorem c2lScan_step3 (t v : Str) (h3 : tryKey CYRILLIC_TO_LATIN t 3 = some v) :
    c2lScan t = v ++ c2lScan (t.drop 3) := by
  match t with
  | [] => simp [tryKey] at h3
  | [c] => simp [tryKey] at h3
  | [c1, c2] => simp [tryKey] at h3
  | c1 :: c2 :: c3 :: rest =>
    have hl : tableLookup CYRILLIC_TO_LATIN (pyLowerStr [c1, c2, c3]) = some v := by
      unfold tryKey at h3
      rw [if_pos (by simp)] at h3
      simpa using h3
    simp [c2lScan, hl]

theorem c2lScan_step2 (t v : Str) (h3 : tryKey CYRILLIC_TO_LATIN t 3 = none)
    (h2 : tryKey CYRILLIC_TO_LATIN t 2 = some v) :
    c2lScan t = v ++ c2lScan (t.drop 2) := by
  match t with
  | [] => simp [tryKey] at h2
  | [c] => simp [tryKey] at h2
  | [c1, c2] =>
    have hl : tableLookup CYRILLIC_TO_LATIN (pyLowerStr [c1, c2]) = some v := by
      unfold tryKey at h2
      rw [if_pos (by simp)] at h2
      simpa using h2
    simp [c2lScan, hl]
  | c1 :: c2 :: c3 :: rest =>
    have hl3 : tableLookup CYRILLIC_TO_LATIN (pyLowerStr [c1, c2, c3]) = none := by
      unfold tryKey at h3
      rw [if_pos (by simp)] at h3
      simpa using h3
    have hl : tableLookup CYRILLIC_TO_LATIN (pyLowerStr [c1, c2]) = some v := by
      unfold tryKey at h2
      rw [if_pos (by simp)] at h2
      simpa using h2
    simp [c2lScan, hl3, hl]

theorem c2lScan_step1 (c : Char) (rest v : Str)
    (h3 : tryKey CYRILLIC_TO_LATIN (c :: rest) 3 = none)
    (h2 : tryKey CYRILLIC_TO_LATIN (c :: rest) 2 = none)
    (h1 : tableLookup CYRILLIC_TO_LATIN [pyLower c] = some v) :
    c2lScan (c :: rest) = (if pyIsUpper c then pyUpperStr v else v) ++ c2lScan rest := by
  match rest with
  | [] => simp [c2lScan, h1]
  | [c2] =>
    have hl2 : tableLookup CYRILLIC_TO_LATIN (pyLowerStr [c, c2]) = none := by
      unfold tryKey at h2
      rw [if_pos (by simp)] at h2
      simpa using h2
    simp [c2lScan, hl2, h1]
  | c2 :: c3 :: rest3 =>
    have hl3 : tableLookup CYRILLIC_TO_LATIN (pyLowerStr [c, c2, c3]) = none := by
      unfold tryKey at h3
      rw [if_pos (by simp)] at h3
      simpa using h3
    have hl2 : tableLookup CYRILLIC_TO_LATIN (pyLowerStr [c, c2]) = none := by
      unfold tryKey at h2
      rw [if_pos (by simp)] at h2
      simpa using h2
    simp [c2lScan, hl3, hl2, h1]

theorem c2lScan_pass (c : Char) (rest : Str)
    (h3 : tryKey CYRILLIC_TO_LATIN (c :: rest) 3 = none)
    (h2 : tryKey CYRILLIC_TO_LATIN (c :: rest) 2 = none)
    (h1 : tableLookup CYRILLIC_TO_LATIN [pyLower c] = none) :
    c2lScan (c :: rest) = c :: c2lScan rest := by
  match rest with
  | [] => simp [c2lScan, h1]
  | [c2] =>
    have hl2 : tableLookup CYRILLIC_TO_LATIN (pyLowerStr [c, c2]) = none := by
      unfold tryKey at h2
      rw [if_pos (by simp)] at h2
      simpa using h2
    simp [c2lScan, hl2, h1]
  | c2 :: c3 :: rest3 =>
    have hl3 : tableLookup CYRILLIC_TO_LATIN (pyLowerStr [c, c2, c3]) = none := by
      unfold tryKey at h3
      rw [if_pos (by simp)] at h3
      simpa using h3
    have hl2 : tableLookup CYRILLIC_TO_LATIN (pyLowerStr [c, c2]) = none := by
      unfold tryKey at h2
      rw [if_pos (by simp)] at h2
      simpa using h2
    simp [c2lScan, hl3, hl2, h1]

theorem c2lScan_id (w : Str)
    (h : ∀ c ∈ w, tableLookup CYRILLIC_TO_LATIN [pyLower c] = none) : c2lScan w = w := by
  induction w with
  | nil => rfl
  | cons c rest ih =>
    have hall : ∀ c0 ∈ c :: rest, tableLookup CYRILLIC_TO_LATIN [pyLower c0] = none := h
    rw [c2lScan_pass c rest
      (tryKey_none_of_chars _ _ _ c2l_keys_head hall)
      (tryKey_none_of_chars _ _ _ c2l_keys_head hall)
      (h c (List.mem_cons_self c rest))]
    rw [ih (fun c0 hc0 => h c0 (List.mem_cons_of_mem c hc0))]

theorem mergeHitsAux_filter_seen (l : List Hit) (seen : List (Option Str)) (i : Option Str)
    (h : i ∈ seen) : (mergeHitsAux l seen).filter (fun x => x.id == i) = [] := by
  induction l generalizing seen with
  | nil => simp [mergeHitsAux]
  | cons a t ih =>
    unfold mergeHitsAux
    split
    · exact ih seen h
    · rename_i hna
      have hne : (a.id == i) = false := by
        apply beq_eq_false_iff_ne.mpr
        intro he
        exact hna (he ▸ h)
      rw [List.filter_cons_of_neg (by simp [hne])]
      exact ih _ (List.mem_cons_of_mem _ h)

theorem mergeHitsAux_filter_not_seen (l : List Hit) (seen : List (Option Str)) (i : Option Str)
    (h : i ∉ seen) :
    (mergeHitsAux l seen).filter (fun x => x.id == i) =
      (l.find? (fun x => x.id == i)).toList := by
  induction l generalizing seen with
  | nil => simp [mergeHitsAux]
  | cons a t ih =>
    unfold mergeHitsAux
    split
    · rename_i hseen
      have hne : (a.id == i) = false := by
        apply beq_eq_false_iff_ne.mpr
        intro he
        exact h (he ▸ hseen)
      rw [List.find?_cons_of_neg _ (by simp [hne])]
      exact ih seen h
    · rename_i hns
      by_cases hai : a.id = i
      · subst hai
        rw [List.filter_cons_of_pos (by simp)]
        rw [List.find?_cons_of_pos _ (by simp)]
        rw [mergeHitsAux_filter_seen t _ _ (List.mem_cons_self _ _)]
        rfl
      · have hne : (a.id == i) = false := beq_eq_false_iff_ne.mpr hai
        rw [List.filter_cons_of_neg (by simp [hne])]
        rw [List.find?_cons_of_neg _ (by simp [hne])]
        exact ih _ (by
          intro hmem
          rcases List.mem_cons.mp hmem with he | hs
          · exact hai he.symm
          · exact h hs)

theorem capGo_length (lps limit : Nat) (t : List Hit) :
    ∀ (counts : Str → Nat) (acc : List Hit), acc.length < limit →
      (capGo lps limit t counts acc).length ≤ limit := by
  induction t with
  | nil => intro counts acc h; exact Nat.le_of_lt h
  | cons a t ih =>
    intro counts acc h
    unfold capGo
    simp only
    split
    · split
      · rename_i hlim
        simpa using h
      · rename_i hlim
        exact ih _ _ (Nat.lt_of_not_le (by simpa using hlim))
    · exact ih _ _ h

theorem capGo_sublist (lps limit : Nat) (t : List Hit) :
    ∀ (counts : Str → Nat) (acc : List Hit),
      ∃ sel, capGo lps limit t counts acc = acc ++ sel ∧ sel.Sublist t := by
  induction t with
  | nil => intro counts acc; exact ⟨[], by simp [capGo]⟩
  | cons a t ih =>
    intro counts acc
    unfold capGo
    simp only
    split
    · split
      · exact ⟨[a], rfl, by simp⟩
      · obtain ⟨sel, hsel, hsub⟩ := ih (fun u => if u = a.source.getD [] then counts (a.source.getD []) + 1 else counts u) (acc ++ [a])
        exact ⟨a :: sel, by simpa using hsel, List.Sublist.cons₂ a hsub⟩
    · obtain ⟨sel, hsel, hsub⟩ := ih counts acc
      exact ⟨sel, hsel, List.Sublist.cons a hsub⟩

theorem capGo_srcCount (lps limit : Nat) (t : List Hit) :
    ∀ (counts : Str → Nat) (acc : List Hit),
      (∀ s : Str, (acc.filter (fun x => x.source.getD [] == s)).length = counts s) →
      (∀ s : Str, (acc.filter (fun x => x.source.getD [] == s)).length ≤ lps) →
      ∀ s : Str,
        ((capGo lps limit t counts acc).filter (fun x => x.source.getD [] == s)).length ≤ lps := by
  induction t with
  | nil => intro counts acc heq hle s; exact hle s
  | cons a t ih =>
    intro counts acc heq hle s
    unfold capGo
    simp only
    have hcount : ∀ s : Str,
        ((acc ++ [a]).filter (fun x => x.source.getD [] == s)).length =
          counts s + (if a.source.getD [] == s then 1 else 0) := by
      intro s
      rw [List.filter_append]
      simp only [List.length_append, heq s]
      congr 1
      by_cases hs : (a.source.getD [] == s) = true
      · simp [hs]
      · simp [List.filter_cons, hs]
    split
    · rename_i hlt
      have hb : ∀ s : Str, ((acc ++ [a]).filter (fun x => x.source.getD [] == s)).length ≤ lps := by
        intro s
        rw [hcount s]
        by_cases hs : (a.source.getD [] == s) = true
        · have : counts s < lps := by
            have := beq_iff_eq.mp hs
            rwa [← this]
          simp [hs]
          omega
        · simp [hs]
          rw [← heq s]
          exact hle s
      split
      · exact hb s
      · refine ih _ _ ?_ hb s
        intro s0
        rw [hcount s0]
        by_cases hs : (a.source.getD [] == s0) = true
        · have hseq := beq_iff_eq.mp hs
          subst hseq
          simp
        · have hne : a.source.getD [] ≠ s0 := by
            intro he
            exact hs (beq_iff_eq.mpr he)
          have hne2 : s0 ≠ a.source.getD [] := fun he => hne he.symm
          simp [hs, hne2]
    · exact ih counts acc heq hle s

theorem specialLookup_mem (k : Str) (v : SpecialVal) (h : specialLookup k = some v) :
    ∃ p ∈ SPECIAL_CASE_MAPPING, p.1 = k := by
  unfold specialLookup at h
  cases hf : SPECIAL_CASE_MAPPING.find? (fun p => p.1 == k) with
  | none => rw [hf] at h; simp at h
  | some p =>
    have hm := List.mem_of_find?_eq_some hf
    have hp := List.find?_some hf
    exact ⟨p, hm, by simpa using hp⟩

theorem special_keys_have_table_char :
    ∀ p ∈ SPECIAL_CASE_MAPPING, ∃ c ∈ p.1,
      (tableLookup LATIN_TO_CYRILLIC [c]).isSome = true ∨
      (tableLookup CYRILLIC_TO_LATIN [c]).isSome = true := by
  decide

theorem specialLookup_list_key (k : Str) (l : List Str)
    (h : specialLookup k = some (SpecialVal.list l)) : k = ("тæрхъус").toList := by
  unfold specialLookup at h
  cases hf : SPECIAL_CASE_MAPPING.find? (fun p => p.1 == k) with
  | none => rw [hf] at h; simp at h
  | some p =>
    rw [hf] at h
    simp only [Option.map_some'] at h
    have h2 : p.2 = SpecialVal.list l := Option.some.inj h
    have hm := List.mem_of_find?_eq_some hf
    have hk := List.find?_some hf
    simp only [SPECIAL_CASE_MAPPING, List.mem_cons, List.not_mem_nil, or_false] at hm
    rcases hm with h1 | h1 | h1 | h1 | h1 <;> subst h1
    · exact SpecialVal.noConfusion h2
    · exact SpecialVal.noConfusion h2
    · exact SpecialVal.noConfusion h2
    · exact SpecialVal.noConfusion h2
    · exact (beq_iff_eq.mp hk).symm

theorem runVariantQueries_prefix_error (backend : Str → Except Str SearchResult)
    (vs1 : List Str) (v : Str) (vs2 : List Str) (e : Str)
    (hok : ∀ u ∈ vs1, ∃ r, backend u = Except.ok r)
    (he : backend v = Except.error e) :
    runVariantQueries backend (vs1 ++ v :: vs2) = Except.error e := by
  induction vs1 with
  | nil => simp [runVariantQueries, he]
  | cons u us ih =>
    obtain ⟨r, hr⟩ := hok u (List.mem_cons_self u us)
    rw [List.cons_append]
    unfold runVariantQueries
    rw [hr, ih (fun u0 hu0 => hok u0 (List.mem_cons_of_mem u hu0))]

/-- C3: outside the special-case lexicon, both transliteration functions run
the left-to-right scan; at each position a 3-character lower-cased slice is
tried first, then 2, then 1, then passthrough by one character, with no
backtracking; a tabled 3-character token such as Cyrillic хъу is therefore
consumed as one unit (its value here kẜ, never the 2+1 split q + u). -/
theorem claimC3_longest_match_first :
    (∀ w : Str, specialLookup (pyLowerStr w) = none →
      latin_to_cyrillic w = SpecialVal.str (l2cScan w) ∧ cyrillic_to_latin w = c2lScan w) ∧
    (∀ t v : Str, 3 ≤ t.length →
      tableLookup LATIN_TO_CYRILLIC (pyLowerStr (t.take 3)) = some v →
      l2cScan t = v ++ l2cScan (t.drop 3)) ∧
    (∀ t v : Str, 3 ≤ t.length →
      tableLookup CYRILLIC_TO_LATIN (pyLowerStr (t.take 3)) = some v →
      c2lScan t = v ++ c2lScan (t.drop 3)) ∧
    (∀ t v : Str, tryKey LATIN_TO_CYRILLIC t 3 = none → 2 ≤ t.length →
      tableLookup LATIN_TO_CYRILLIC (pyLowerStr (t.take 2)) = some v →
      l2cScan t = v ++ l2cScan (t.drop 2)) ∧
    (∀ t v : Str, tryKey CYRILLIC_TO_LATIN t 3 = none → 2 ≤ t.length →
      tableLookup CYRILLIC_TO_LATIN (pyLowerStr (t.take 2)) = some v →
      c2lScan t = v ++ c2lScan (t.drop 2)) ∧
    (∀ (c : Char) (rest v : Str),
      tryKey LATIN_TO_CYRILLIC (c :: rest) 3 = none →
      tryKey LATIN_TO_CYRILLIC (c :: rest) 2 = none →
      tableLookup LATIN_TO_CYRILLIC [pyLower c] = some v →
      l2cScan (c :: rest) = (if pyIsUpper c then pyUpperStr v else v) ++ l2cScan rest) ∧
    (∀ (c : Char) (rest v : Str),
      tryKey CYRILLIC_TO_LATIN (c :: rest) 3 = none →
      tryKey CYRILLIC_TO_LATIN (c :: rest) 2 = none →
      tableLookup CYRILLIC_TO_LATIN [pyLower c] = some v →
      c2lScan (c :: rest) = (if pyIsUpper c then pyUpperStr v else v) ++ c2lScan rest) ∧
    (∀ (c : Char) (rest : Str),
      tryKey LATIN_TO_CYRILLIC (c :: rest) 3 = none →
      tryKey LATIN_TO_CYRILLIC (c :: rest) 2 = none →
      tableLookup LATIN_TO_CYRILLIC [pyLower c] = none →
      l2cScan (c :: rest) = c :: l2cScan rest) ∧
    (∀ (c : Char) (rest : Str),
      tryKey CYRILLIC_TO_LATIN (c :: rest) 3 = none →
      tryKey CYRILLIC_TO_LATIN (c :: rest) 2 = none →
      tableLookup CYRILLIC_TO_LATIN [pyLower c] = none →
      c2lScan (c :: rest) = c :: c2lScan rest) ∧
    cyrillic_to_latin (("хъу").toList) = ("kẜ").toList := by
  refine ⟨?_, ?_, ?_, ?_, ?_, ?_, ?_, ?_, ?_, by decide⟩
  · intro w hw
    constructor
    · simp [latin_to_cyrillic, hw]
    · simp [cyrillic_to_latin, hw]
  · intro t v hlen hlk
    exact l2cScan_step3 t v (by unfold tryKey; rw [if_pos hlen]; exact hlk)
  · intro t v hlen hlk
    exact c2lScan_step3 t v (by unfold tryKey; rw [if_pos hlen]; exact hlk)
  · intro t v h3 hlen hlk
    exact l2cScan_step2 t v h3 (by unfold tryKey; rw [if_pos hlen]; exact hlk)
  · intro t v h3 hlen hlk
    exact c2lScan_step2 t v h3 (by unfold tryKey; rw [if_pos hlen]; exact hlk)
  · exact l2cScan_step1
  · exact c2lScan_step1
  · exact l2cScan_pass
  · exact c2lScan_pass

/-- C3 witness: the bridge and the trigraph step at concrete inputs. -/
theorem claimC3_witness :
    latin_to_cyrillic (("bæx").toList) = SpecialVal.str (l2cScan (("bæx").toList)) ∧
    c2lScan (("хъу").toList) = ("kẜ").toList ++ c2lScan ((("хъу").toList).drop 3) :=
  ⟨(claimC3_longest_match_first.1 (("bæx").toList) (by decide)).1,
   claimC3_longest_match_first.2.2.1 (("хъу").toList) (("kẜ").toList) (by decide) (by decide)⟩

/-- C2 counterexample: the claim says the first character of each mapped
token preserves the case of the consumed slice's first character for 3-, 2-
and 1-character matches alike.  For the 2-character match K-apostrophe the
input's first character is uppercase but the code emits the table value
къ verbatim, whose first character is lowercase. -/
theorem claimC2_counterexample :
    pyIsUpper 'K' = true ∧
    latin_to_cyrillic (("K'").toList) = SpecialVal.str (("къ").toList) ∧
    pyIsUpper 'к' = false := by
  refine ⟨by decide, by decide, by decide⟩

/-- C2 amended: case is adjusted only in the single-character branch, and
there the whole mapped output is upper-cased (Q becomes ХЪ, both characters
uppercase), while 2- and 3-character matches emit the table value verbatim
regardless of the input slice's case (Къ becomes k-apostrophe). -/
theorem claimC2_amended :
    (∀ (c : Char) (rest v : Str),
      tryKey LATIN_TO_CYRILLIC (c :: rest) 3 = none →
      tryKey LATIN_TO_CYRILLIC (c :: rest) 2 = none →
      tableLookup LATIN_TO_CYRILLIC [pyLower c] = some v →
      pyIsUpper c = true →
      l2cScan (c :: rest) = pyUpperStr v ++ l2cScan rest) ∧
    (∀ (c : Char) (rest v : Str),
      tryKey CYRILLIC_TO_LATIN (c :: rest) 3 = none →
      tryKey CYRILLIC_TO_LATIN (c :: rest) 2 = none →
      tableLookup CYRILLIC_TO_LATIN [pyLower c] = some v →
      pyIsUpper c = true →
      c2lScan (c :: rest) = pyUpperStr v ++ c2lScan rest) ∧
    (∀ t v : Str, tryKey LATIN_TO_CYRILLIC t 3 = some v →
      l2cScan t = v ++ l2cScan (t.drop 3)) ∧
    (∀ t v : Str, tryKey CYRILLIC_TO_LATIN t 3 = some v →
      c2lScan t = v ++ c2lScan (t.drop 3)) ∧
    (∀ t v : Str, tryKey LATIN_TO_CYRILLIC t 3 = none →
      tryKey LATIN_TO_CYRILLIC t 2 = some v →
      l2cScan t = v ++ l2cScan (t.drop 2)) ∧
    (∀ t v : Str, tryKey CYRILLIC_TO_LATIN t 3 = none →
      tryKey CYRILLIC_TO_LATIN t 2 = some v →
      c2lScan t = v ++ c2lScan (t.drop 2)) ∧
    l2cScan (("Q").toList) = ("ХЪ").toList ∧
    c2lScan (("Къ").toList) = ("k'").toList := by
  refine ⟨?_, ?_, l2cScan_step3, c2lScan_step3, l2cScan_step2, c2lScan_step2,
    by decide, by decide⟩
  · intro c rest v h3 h2 h1 hu
    rw [l2cScan_step1 c rest v h3 h2 h1, if_pos hu]
  · intro c rest v h3 h2 h1 hu
    rw [c2lScan_step1 c rest v h3 h2 h1, if_pos hu]

/-- C2 witness: the single-character branch at Q and the verbatim
2-character branch at Къ. -/
theorem claimC2_witness :
    l2cScan ['Q'] = pyUpperStr (("хъ").toList) ++ l2cScan [] ∧
    c2lScan (("Къ").toList) = ("k'").toList ++ c2lScan ((("Къ").toList).drop 2) :=
  ⟨claimC2_amended.1 'Q' [] (("хъ").toList) (by decide) (by decide) (by decide) (by decide),
   claimC2_amended.2.2.2.2.2.1 (("Къ").toList) (("k'").toList) (by decide) (by decide)⟩

/-- C7 counterexample: the character B occurs nowhere in either mapping
table (neither in a key nor in a value), yet `get_all_script_variants` of
the word B is not the singleton: the single-character lookup is done on the
lower-cased character, so B transliterates to Б and the set gains it. -/
theorem claimC7_counterexample :
    (∀ p ∈ LATIN_TO_CYRILLIC, ('B') ∉ p.1 ∧ ('B') ∉ p.2) ∧
    (∀ p ∈ CYRILLIC_TO_LATIN, ('B') ∉ p.1 ∧ ('B') ∉ p.2) ∧
    ("Б").toList ∈ (get_all_script_variants (("B").toList)).getD [] ∧
    ("Б").toList ≠ ("B").toList := by
  refine ⟨by decide, by decide, by decide, by decide⟩

/-- C7 amended: if no character of the word's lower-casing is a key of
either mapping table or of the spelling-variant table, then
`get_all_script_variants` returns exactly the singleton of the word. -/
theorem claimC7_amended (w : Str)
    (hL : ∀ c ∈ w, tableLookup LATIN_TO_CYRILLIC [pyLower c] = none)
    (hC : ∀ c ∈ w, tableLookup CYRILLIC_TO_LATIN [pyLower c] = none)
    (hV : ∀ c ∈ w, variantLookup (pyLower c) = none) :
    get_all_script_variants w = some [w] := by
  have hspec : specialLookup (pyLowerStr w) = none := by
    cases hs : specialLookup (pyLowerStr w) with
    | none => rfl
    | some val =>
      obtain ⟨p, hp, hpk⟩ := specialLookup_mem _ val hs
      obtain ⟨c, hc, hcs⟩ := special_keys_have_table_char p hp
      rw [hpk] at hc
      obtain ⟨c0, hc0, rfl⟩ := List.mem_map.mp hc
      rcases hcs with hcs | hcs
      · rw [hL c0 hc0] at hcs
        simp at hcs
      · rw [hC c0 hc0] at hcs
        simp at hcs
  have hany : (pyLowerStr w).any (fun c => (tableLookup CYRILLIC_TO_LATIN [c]).isSome) = false := by
    rw [List.any_eq_false]
    intro c hc
    obtain ⟨c0, hc0, rfl⟩ := List.mem_map.mp hc
    rw [hC c0 hc0]
    simp
  have hl2c : latin_to_cyrillic w = SpecialVal.str w := by
    rw [latin_to_cyrillic, hspec, l2cScan_id w hL]
  have hgen : generate_variants w = [w] := by
    unfold generate_variants
    have hnil : (List.range w.length).flatMap (variantsAt w) = [] := by
      apply List.eq_nil_iff_forall_not_mem.mpr
      intro x hx
      rw [List.mem_flatMap] at hx
      obtain ⟨i, hi, hxi⟩ := hx
      unfold variantsAt at hxi
      cases hg : w[i]? with
      | none => rw [hg] at hxi; simp at hxi
      | some ch =>
        rw [hg] at hxi
        have hch : ch ∈ w := List.mem_iff_getElem?.mpr ⟨i, hg⟩
        simp [hV ch hch] at hxi
    rw [hnil]
  simp [get_all_script_variants, hspec, hany, hl2c, hgen, addVariant, addVariants]

/-- C7 witness: a digit word is its own only variant. -/
theorem claimC7_witness : get_all_script_variants (("7").toList) = some [("7").toList] :=
  claimC7_amended (("7").toList) (by decide) (by decide) (by decide)

/-- C10: `latin_to_cyrillic` returns the special-case value as-is, so for
every input whose lower-casing is тæрхъус (the one list-valued key) the
result is the four-element list of Latin spellings rather than a string,
and for every other input the result is a string. -/
theorem claimC10_list_escape (w : Str) :
    (pyLowerStr w = ("тæрхъус").toList →
      latin_to_cyrillic w = SpecialVal.list
        [("tærqūs").toList, ("tærqos").toList, ("tärqūs").toList, ("tärqos").toList]) ∧
    (pyLowerStr w ≠ ("тæрхъус").toList → ∃ s, latin_to_cyrillic w = SpecialVal.str s) := by
  constructor
  · intro h
    rw [latin_to_cyrillic, h]
    rfl
  · intro h
    cases hs : specialLookup (pyLowerStr w) with
    | none => exact ⟨l2cScan w, by rw [latin_to_cyrillic, hs]⟩
    | some val =>
      cases val with
      | str s => exact ⟨s, by rw [latin_to_cyrillic, hs]⟩
      | list l => exact absurd (specialLookup_list_key _ l hs) h

/-- C10 witness: Тæрхъус (capitalised) yields the list; bæx yields a
string. -/
theorem claimC10_witness :
    latin_to_cyrillic (("Тæрхъус").toList) = SpecialVal.list
      [("tærqūs").toList, ("tærqos").toList, ("tärqūs").toList, ("tärqos").toList] ∧
    (∃ s, latin_to_cyrillic (("bæx").toList) = SpecialVal.str s) :=
  ⟨(claimC10_list_escape (("Тæрхъус").toList)).1 (by decide),
   (claimC10_list_escape (("bæx").toList)).2 (by decide)⟩

/-- C1 counterexample: the word æ contains the character æ (a key of the
Cyrillic-to-Latin table), its lower-casing is not a special-case key, yet
the returned collection does contain its `latin_to_cyrillic` image, because
that image is the word itself. -/
theorem claimC1_counterexample :
    ('æ') ∈ ("æ").toList ∧
    specialLookup (pyLowerStr (("æ").toList)) = none ∧
    latin_to_cyrillic (("æ").toList) = SpecialVal.str (("æ").toList) ∧
    ("æ").toList ∈ (get_all_script_variants (("æ").toList)).getD [] := by
  refine ⟨by decide, by decide, by decide, by decide⟩

/-- C1 amended: a word containing æ whose lower-casing is not a
special-case key is classified Cyrillic, and the returned collection is
exactly the word itself together with the spelling variants of its
`cyrillic_to_latin` image (which include the image); `latin_to_cyrillic`
is never consulted, though its value can coincide with a member. -/
theorem claimC1_amended (w : Str) (hm : ('æ') ∈ w)
    (hs : specialLookup (pyLowerStr w) = none) :
    ∃ vs, get_all_script_variants w = some vs ∧
      ∀ v, v ∈ vs ↔ (v = w ∨ v ∈ generate_variants (cyrillic_to_latin w)) := by
  have hlow : ('æ') ∈ pyLowerStr w := List.mem_map.mpr ⟨'æ', hm, by decide⟩
  have hany : (pyLowerStr w).any (fun c => (tableLookup CYRILLIC_TO_LATIN [c]).isSome) = true :=
    List.any_eq_true.mpr ⟨'æ', hlow, by decide⟩
  refine ⟨addVariants (addVariant [w] (cyrillic_to_latin w))
      (generate_variants (cyrillic_to_latin w)), ?_, ?_⟩
  · simp [get_all_script_variants, hs, hany]
  · intro v
    rw [mem_addVariants, mem_addVariant]
    have hhead : cyrillic_to_latin w ∈ generate_variants (cyrillic_to_latin w) := by
      unfold generate_variants
      exact List.mem_cons_self _ _
    constructor
    · rintro ((hv | rfl) | hv)
      · left
        simpa using hv
      · right
        exact hhead
      · right
        exact hv
    · rintro (rfl | hv)
      · left
        left
        simp
      · right
        exact hv

/-- C1 witness: the amended description at bæx. -/
theorem claimC1_witness :
    ∃ vs, get_all_script_variants (("bæx").toList) = some vs ∧
      ∀ v, v ∈ vs ↔
        (v = ("bæx").toList ∨ v ∈ generate_variants (cyrillic_to_latin (("bæx").toList))) :=
  claimC1_amended (("bæx").toList) (by decide) (by decide)

/-- C4: the transliteration merge used by `searchDictionary` appends a hit
only when its identity has not been seen; for any identity, the merged list
keeps exactly the first-seen hit of the concatenated variant results (in
variant order) and drops every later duplicate, regardless of score. -/
theorem claimC4_merge_first_seen_wins (lists : List (List Hit)) (i : Option Str) :
    (mergeVariantHits lists).filter (fun x => x.id == i) =
      (lists.flatten.find? (fun x => x.id == i)).toList :=
  mergeHitsAux_filter_not_seen lists.flatten [] i (List.not_mem_nil i)

/-- C5: with a positive global limit, the per-source cap keeps at most
`limit` hits overall and at most `lps` hits per source, preserves the order
of the input (so a score-sorted input stays score-sorted), and a hit from a
capped source is skipped without halting the iteration (the concrete run
keeps three A hits, skips the fourth A, and still picks up the B hit). -/
theorem claimC5_per_source_cap :
    (∀ (hits : List Hit) (lps limit : Nat), 0 < limit →
      (applyPerSourceCap hits lps limit).length ≤ limit ∧
      (∀ s : Str, ((applyPerSourceCap hits lps limit).filter
          (fun x => x.source.getD [] == s)).length ≤ lps) ∧
      (applyPerSourceCap hits lps limit).Sublist hits ∧
      (List.Pairwise (fun a b => hitScore b ≤ hitScore a) hits →
        List.Pairwise (fun a b => hitScore b ≤ hitScore a) (applyPerSourceCap hits lps limit))) ∧
    applyPerSourceCap
      [demoHit (("A").toList) 5, demoHit (("A").toList) 4, demoHit (("A").toList) 3,
       demoHit (("A").toList) 2, demoHit (("B").toList) 1] 3 50 =
      [demoHit (("A").toList) 5, demoHit (("A").toList) 4, demoHit (("A").toList) 3,
       demoHit (("B").toList) 1] := by
  constructor
  · intro hits lps limit hlim
    obtain ⟨sel, hsel, hsub⟩ := capGo_sublist lps limit hits (fun _ => 0) []
    have hcap : applyPerSourceCap hits lps limit = sel := by
      unfold applyPerSourceCap
      simpa using hsel
    refine ⟨?_, ?_, ?_, ?_⟩
    · exact capGo_length lps limit hits _ [] (by simpa using hlim)
    · intro s
      exact capGo_srcCount lps limit hits _ [] (by simp) (by simp) s
    · rw [hcap]
      exact hsub
    · intro hp
      rw [hcap]
      exact List.Pairwise.sublist hsub hp
  · decide

/-- C5 witness: the capped list of a one-hit input under limit 50. -/
theorem claimC5_witness :
    (0 : Nat) < 50 ∧ (applyPerSourceCap [demoHit (("A").toList) 5] 3 50).length ≤ 50 :=
  ⟨by decide, (claimC5_per_source_cap.1 [demoHit (("A").toList) 5] 3 50 (by decide)).1⟩

/-- C8: with context size full, a hit carrying a full-context field has it
renamed to the expanded-context field; a hit without one gets a context
synthesized from its definition with the full-size note, which differs from
the expanded-size note; synthesis of a non-empty definition is never empty
or absent, and an empty definition yields no context value. -/
theorem claimC8_full_context_shaping (h : Hit) (c : Str) :
    (h.fullContext = some c →
      shapeHit (("full").toList) h = { h with expandedContext := some c, fullContext := none }) ∧
    (h.fullContext = none →
      shapeHit (("full").toList) h =
        { h with expandedContext :=
            generate_expanded_context (h.definition.getD []) (("full").toList) }) ∧
    (∀ d : Str, d ≠ [] →
      generate_expanded_context d (("full").toList) = some (d ++ fullContextNote) ∧
      d ++ fullContextNote ≠ [] ∧
      generate_expanded_context d (("full").toList) ≠
        generate_expanded_context d (("expanded").toList)) ∧
    generate_expanded_context [] (("full").toList) = none ∧
    (∀ r : SearchResult, process_search_results r (("full").toList) =
      { r with hits := r.hits.map (shapeHit (("full").toList)) }) := by
  refine ⟨?_, ?_, ?_, by decide, fun r => rfl⟩
  · intro hf
    unfold shapeHit
    rw [if_neg (by decide), if_neg (by decide), if_pos rfl, hf]
  · intro hf
    unfold shapeHit
    rw [if_neg (by decide), if_neg (by decide), if_pos rfl, hf]
  · intro d hd
    have hfull : generate_expanded_context d (("full").toList) = some (d ++ fullContextNote) := by
      unfold generate_expanded_context
      rw [if_neg (by
        rintro (h1 | h1)
        · exact hd h1
        · exact absurd h1 (by decide))]
      rw [if_neg (by decide), if_pos rfl]
    have hexp : generate_expanded_context d (("expanded").toList) =
        some (d ++ expandedContextNote) := by
      unfold generate_expanded_context
      rw [if_neg (by
        rintro (h1 | h1)
        · exact hd h1
        · exact absurd h1 (by decide))]
      rw [if_pos rfl]
    refine ⟨hfull, ?_, ?_⟩
    · intro he
      rw [List.append_eq_nil] at he
      exact absurd he.2 (by decide)
    · rw [hfull, hexp]
      intro he
      have h2 := List.append_cancel_left (Option.some.inj he)
      exact absurd h2 (by decide)

/-- C8 witness: renaming on a hit with a full context, and synthesis from a
non-empty definition. -/
theorem claimC8_witness :
    shapeHit (("full").toList)
        { id := none, term := none, definition := none, source := none, rankingScore := none,
          expandedContext := none, fullContext := some (("ctx").toList) } =
      { id := none, term := none, definition := none, source := none, rankingScore := none,
        expandedContext := some (("ctx").toList), fullContext := none } ∧
    generate_expanded_context (("d").toList) (("full").toList) =
      some ((("d").toList) ++ fullContextNote) :=
  ⟨(claimC8_full_context_shaping
      { id := none, term := none, definition := none, source := none, rankingScore := none,
        expandedContext := none, fullContext := some (("ctx").toList) } (("ctx").toList)).1 rfl,
   ((claimC8_full_context_shaping
      { id := none, term := none, definition := none, source := none, rankingScore := none,
        expandedContext := none, fullContext := none } []).2.2.1 (("d").toList) (by decide)).1⟩

/-- C6 counterexample: with transliteration disabled the code never
re-sorts the backend's hit list.  A backend returning a lower-scoring hit
before a higher-scoring one passes through `searchDictionary` in that
original order, contradicting the claim that the list is score-sorted
before the filter/cap step. -/
theorem claimC6_counterexample :
    searchDictionary cexBackend id (("q").toList) 50 5 false (("default").toList) none =
      Except.ok { hits := [demoHit (("A").toList) 0, demoHit (("B").toList) 1],
                  estimatedTotalHits := 2, processingTimeMs := 1 } ∧
    hitScore (demoHit (("A").toList) 0) < hitScore (demoHit (("B").toList) 1) := by
  refine ⟨rfl, by decide⟩

/-- C6 amended: with transliteration disabled, exactly one backend query is
issued, for the query string verbatim (the result depends on the backend
only at the query itself), and the returned hits are the context-shaped
backend hits in the backend's original order, filtered or capped — without
any re-sorting. -/
theorem claimC6_amended :
    (∀ (backend backend2 : Str → Except Str SearchResult) (norm : Str → Str) (query : Str)
        (limit lps : Nat) (cs : Str) (src : Option Str),
      backend query = backend2 query →
      searchDictionary backend norm query limit lps false cs src =
        searchDictionary backend2 norm query limit lps false cs src) ∧
    (∀ (backend : Str → Except Str SearchResult) (norm : Str → Str) (query : Str)
        (limit lps : Nat) (cs : Str) (src : Option Str) (r : SearchResult),
      backend query = Except.ok r →
      ∃ hs, searchDictionary backend norm query limit lps false cs src =
          Except.ok { hits := hs, estimatedTotalHits := r.estimatedTotalHits,
                      processingTimeMs := r.processingTimeMs } ∧
        hs.Sublist (r.hits.map (shapeHit cs))) := by
  constructor
  · intro backend backend2 norm query limit lps cs src h
    simp [searchDictionary, searchBody, h]
  · intro backend norm query limit lps cs src r h
    cases src with
    | none =>
      refine ⟨applyPerSourceCap ((process_search_results r cs).hits) lps limit, ?_, ?_⟩
      · simp [searchDictionary, searchBody, h, process_search_results]
      · obtain ⟨sel, hsel, hsub⟩ := capGo_sublist lps limit ((process_search_results r cs).hits)
          (fun _ => 0) []
        unfold applyPerSourceCap
        rw [hsel]
        simpa [process_search_results] using hsub
    | some src0 =>
      refine ⟨(((process_search_results r cs).hits).filter
          (fun x => containsSub (norm (pyLowerStr src0)) (norm (pyLowerStr (x.source.getD []))))).take
          limit, ?_, ?_⟩
      · simp [searchDictionary, searchBody, h, process_search_results]
      · refine List.Sublist.trans (List.take_sublist _ _) ?_
        refine List.Sublist.trans (List.filter_sublist _) ?_
        simp [process_search_results]

/-- C6 witness: the amended statement at the concrete unsorted backend. -/
theorem claimC6_witness :
    ∃ hs, searchDictionary cexBackend id (("q").toList) 50 5 false (("default").toList) none =
        Except.ok { hits := hs, estimatedTotalHits := 2, processingTimeMs := 1 } ∧
      hs.Sublist ([demoHit (("A").toList) 0, demoHit (("B").toList) 1].map
        (shapeHit (("default").toList))) :=
  claimC6_amended.2 cexBackend id (("q").toList) 50 5 (("default").toList) none
    { hits := [demoHit (("A").toList) 0, demoHit (("B").toList) 1],
      estimatedTotalHits := 2, processingTimeMs := 1 } rfl

/-- C9 counterexample: the query b expands to the variants b and б; the
backend succeeds on b (with one hit) and fails on б, and the whole search
aborts with the generic search-engine error — the failure is not scoped to
the failing variant and the successful variant's hits are discarded. -/
theorem claimC9_counterexample :
    get_all_script_variants (("b").toList) = some [("b").toList, ("б").toList] ∧
    cexBackendFail (("b").toList) =
      Except.ok { hits := [demoHit (("A").toList) 1], estimatedTotalHits := 1,
                  processingTimeMs := 1 } ∧
    cexBackendFail (("б").toList) = Except.error (("boom").toList) ∧
    searchDictionary cexBackendFail id (("b").toList) 50 5 true (("default").toList) none =
      Except.error (("Search engine error: boom").toList) := by
  refine ⟨by decide, rfl, rfl, rfl⟩

/-- C9 amended: if any variant sub-query fails (all variants before it in
generation order succeeding), `search_dictionary` aborts the entire merged
search and raises the generic search-engine error built from the failing
variant's message; no per-variant scoping or partial result is produced. -/
theorem claimC9_amended (backend : Str → Except Str SearchResult) (norm : Str → Str)
    (query : Str) (limit lps : Nat) (cs : Str) (src : Option Str)
    (vs1 : List Str) (v : Str) (vs2 : List Str) (e : Str)
    (hv : get_all_script_variants query = some (vs1 ++ v :: vs2))
    (hok : ∀ u ∈ vs1, ∃ r, backend u = Except.ok r)
    (he : backend v = Except.error e) :
    searchDictionary backend norm query limit lps true cs src =
      Except.error ((("Search engine error: ").toList) ++ e) := by
  have hrun := runVariantQueries_prefix_error backend vs1 v vs2 e hok he
  simp [searchDictionary, searchBody, hv, hrun]

/-- C9 witness: the amended statement at the concrete failing backend. -/
theorem claimC9_witness :
    searchDictionary cexBackendFail id (("b").toList) 50 5 true (("default").toList) none =
      Except.error ((("Search engine error: ").toList) ++ (("boom").toList)) :=
  claimC9_amended cexBackendFail id (("b").toList) 50 5 (("default").toList) none
    [("b").toList] (("б").toList) [] (("boom").toList) (by decide)
    (by
      intro u hu
      rw [List.mem_singleton] at hu
      subst hu
      exact ⟨_, rfl⟩)
    rfl
